import Mathlib

/-!
Shallow embedding of `src/single-linked-list/single-linked-list.h`
(`template<typename Type> class SingleLinkedList`), instantiated at
`Type = Int`.

Modelling conventions:
* A list state is the ordered chain of real-node values (`elems`) together
  with the stored counter `size_`.  The chain of `next_node` links hanging
  off the sentinel `head_` is exactly `elems`, in order;
  `head_.next_node == nullptr` corresponds to `elems = []`.
* A cursor (`BasicIterator`) is an `Option Nat`: `some 0` references the
  sentinel (`&head_`, i.e. `before_begin()`), `some i` with `1 ≤ i`
  references the i-th real node (1-based), and `none` is the null iterator
  (`end()` / a default-constructed iterator).
* An operation that can hit a failing `assert` or undefined behaviour
  (dereferencing a null pointer or the end iterator, or a cursor that does
  not reference a node of the list) returns `Option`; `none` marks the
  aborted / undefined execution, `some` the normal result.
* Where the code compares node addresses (`operator==` on lists, the
  `assert` in `operator=`), a second structure `SLLPtr` additionally
  records the address stored in `head_.next_node` (`none` for `nullptr`).
-/

structure SingleLinkedList where
  elems : List Int
  size_ : Nat
deriving DecidableEq

/-- Default constructor `SingleLinkedList() {}`: `size_ = 0` and the
sentinel's `next_node` is null (empty chain). -/
def SingleLinkedList.empty : SingleLinkedList := ⟨[], 0⟩

/-- `GetSize()`: returns the stored counter `size_`. -/
def SingleLinkedList.GetSize (s : SingleLinkedList) : Nat := s.size_

/-- `IsEmpty()`: `GetSize() == 0`. -/
def SingleLinkedList.IsEmpty (s : SingleLinkedList) : Bool := s.GetSize == 0

/-- `begin()`: `Iterator{head_.next_node}` — the first real node, or the
null iterator when the chain is empty. -/
def SingleLinkedList.begin (s : SingleLinkedList) : Option Nat :=
  if s.elems.isEmpty then none else some 1

/-- `end()`: `Iterator{nullptr}`. -/
def SingleLinkedList.endIt (_ : SingleLinkedList) : Option Nat := none

/-- `before_begin()`: `Iterator(&head_)` — references the sentinel. -/
def SingleLinkedList.before_begin (_ : SingleLinkedList) : Option Nat := some 0

/-- `PushFront(value)`: `head_.next_node = new Node(value, head_.next_node);
++size_;`. -/
def SingleLinkedList.PushFront (s : SingleLinkedList) (value : Int) :
    SingleLinkedList :=
  ⟨value :: s.elems, s.size_ + 1⟩

/-- `SetSize(size)`: `size_ = size;` — overwrites the counter, the node
chain is untouched. -/
def SingleLinkedList.SetSize (s : SingleLinkedList) (size : Nat) :
    SingleLinkedList :=
  ⟨s.elems, size⟩

/-- `InsertAfter(pos, value)`: `assert(pos.node_ != nullptr)` (the `none`
cursor aborts); a new node holding `value` is spliced between the node
referenced by `pos` (`some i`, the sentinel for `i = 0`) and its current
successor, `size_++`, and an iterator to the new node
(`Iterator{pos.node_->next_node}`) is returned.  A cursor index beyond the
chain does not reference a node of this list: undefined behaviour,
modelled as `none`. -/
def SingleLinkedList.InsertAfter (s : SingleLinkedList) (pos : Option Nat)
    (value : Int) : Option (SingleLinkedList × Option Nat) :=
  match pos with
  | none => none
  | some i =>
    if i ≤ s.elems.length then
      some (⟨s.elems.take i ++ value :: s.elems.drop i, s.size_ + 1⟩,
            some (i + 1))
    else none

/-- `PopFront()`: early return when `IsEmpty()`; otherwise unlinks and
deletes `head_.next_node` and decrements `size_`.  When `size_ != 0` but
the chain is empty (reachable via `SetSize`), `head_.next_node` is null
and deleting through it is undefined behaviour (`none`). -/
def SingleLinkedList.PopFront (s : SingleLinkedList) : Option SingleLinkedList :=
  if s.IsEmpty then some s
  else
    match s.elems with
    | [] => none
    | _ :: rest => some ⟨rest, s.size_ - 1⟩

/-- `EraseAfter(pos)`: early return of `Iterator{nullptr}` when
`IsEmpty()`; then `assert(pos.node_ != nullptr)` and
`assert(pos.node_->next_node != nullptr)` — a null cursor, a cursor index
beyond the chain, or a cursor on the last node aborts (`none`).  Otherwise
the node following `pos` is unlinked and deleted, `size_--`, and
`Iterator{pos.node_->next_node}` (the node now following `pos`, null if
none) is returned. -/
def SingleLinkedList.EraseAfter (s : SingleLinkedList) (pos : Option Nat) :
    Option (SingleLinkedList × Option Nat) :=
  if s.IsEmpty then some (s, none)
  else
    match pos with
    | none => none
    | some i =>
      if i < s.elems.length then
        some (⟨s.elems.take i ++ s.elems.drop (i + 1), s.size_ - 1⟩,
              if i < (s.elems.take i ++ s.elems.drop (i + 1)).length then
                some (i + 1)
              else none)
      else none

/-- Member `swap(other)`: early return (no-op) when `other.IsEmpty()`;
otherwise `std::swap` of the two `size_` fields and of the two
`head_.next_node` links — a wholesale exchange of the chains.  Returns the
pair (new `*this*` state, new `other` state). -/
def SingleLinkedList.swap (s other : SingleLinkedList) :
    SingleLinkedList × SingleLinkedList :=
  if other.IsEmpty then (s, other) else (other, s)

/-- Free function `swap(lhs, rhs)`: calls `lhs.swap(rhs)`. -/
def swapFree (lhs rhs : SingleLinkedList) :
    SingleLinkedList × SingleLinkedList :=
  lhs.swap rhs

/-- `Clear()`: early return when `size_ == 0`; otherwise delete the chain
node by node (`while (head_.next_node != nullptr)`) and set `size_ = 0`. -/
def SingleLinkedList.Clear (s : SingleLinkedList) : SingleLinkedList :=
  if s.GetSize = 0 then s else ⟨[], 0⟩

/-- `InitHead(value)`: `head_.next_node = new Node(value, nullptr); ++size_;`
— overwrites the sentinel link with a fresh single node (a previous chain
would leak) and increments the counter. -/
def SingleLinkedList.InitHead (s : SingleLinkedList) (value : Int) :
    SingleLinkedList :=
  ⟨[value], s.size_ + 1⟩

/-- The `while (p != end)` loop of `PushListTmp`: repeatedly
`tmp_p = tmp.InsertAfter(tmp_p, *p)`, keeping the cursor on the node just
inserted.  Carries the current `tmp` state and the cursor index. -/
def SingleLinkedList.pushLoop :
    SingleLinkedList → Nat → List Int → Option (SingleLinkedList × Nat)
  | tmp, cur, [] => some (tmp, cur)
  | tmp, cur, v :: rest =>
    match tmp.InsertAfter (some cur) v with
    | some (tmp2, some cur2) => SingleLinkedList.pushLoop tmp2 cur2 rest
    | _ => none

/-- `PushListTmp(begin, end)`: `tmp.InitHead(*p)` dereferences the first
iterator unconditionally, so an empty input range dereferences the end
iterator — undefined behaviour (`none`).  Otherwise a local
default-constructed `tmp` receives the first value via `InitHead`, the
loop appends the remaining values after the moving cursor
(`tmp_p = tmp.begin()` initially), and finally `swap(tmp)` exchanges `tmp`
into `*this*`. -/
def SingleLinkedList.PushListTmp (s : SingleLinkedList) (values : List Int) :
    Option SingleLinkedList :=
  match values with
  | [] => none
  | v :: rest =>
    let tmp := SingleLinkedList.empty.InitHead v
    match tmp.begin with
    | none => none
    | some c =>
      match SingleLinkedList.pushLoop tmp c rest with
      | none => none
      | some (tmp2, _) => some (s.swap tmp2).1

/-- Constructor `SingleLinkedList(std::initializer_list<Type> values)`:
default-initialises the members, then `PushListTmp(values.begin(),
values.end())`. -/
def SingleLinkedList.fromInitList (values : List Int) :
    Option SingleLinkedList :=
  SingleLinkedList.empty.PushListTmp values

/-- Copy constructor `SingleLinkedList(const SingleLinkedList &other)`:
early return when `other.IsEmpty()` (the fresh list stays empty);
otherwise `PushListTmp(other.begin(), other.end())` — the iteration of
`other` visits its chain values in order. -/
def SingleLinkedList.copyCtor (other : SingleLinkedList) :
    Option SingleLinkedList :=
  if other.IsEmpty then some SingleLinkedList.empty
  else SingleLinkedList.empty.PushListTmp other.elems

/-- The size/chain coherence invariant: the stored counter equals the
number of nodes reachable from the sentinel. -/
def sizeInv (s : SingleLinkedList) : Prop := s.size_ = s.elems.length

/-- Pointer-refined view of a list: `firstPtr` is the node address stored
in `head_.next_node` (`none` for `nullptr`).  Needed only where the code
compares node addresses: the `assert` of `operator=` and the short-circuit
of `operator==`.  Distinct live lists never share node addresses (nodes
are freshly allocated and `swap` exchanges whole chains), so for distinct
objects `firstPtr lhs = firstPtr rhs` happens exactly when both are null;
for the same object the two sides are literally the same field. -/
structure SLLPtr where
  firstPtr : Option Nat
  elems : List Int
  size_ : Nat
deriving DecidableEq

/-- `GetSize()` on the pointer-refined view. -/
def SLLPtr.GetSize (s : SLLPtr) : Nat := s.size_

/-- `IsEmpty()` on the pointer-refined view: `GetSize() == 0`. -/
def SLLPtr.IsEmpty (s : SLLPtr) : Bool := s.GetSize == 0

/-- Member `swap(other)` on the pointer-refined view: no-op when
`other.IsEmpty()`, otherwise `std::swap` of `size_` and of
`head_.next_node` — which exchanges the first-node addresses and with them
the whole chains. -/
def SLLPtr.swap (s other : SLLPtr) : SLLPtr × SLLPtr :=
  if other.IsEmpty then (s, other) else (other, s)

/-- Copy constructor on the pointer-refined view: as in the value model,
but the copied chain consists of freshly allocated nodes, so the new first
node gets a fresh address `fresh` (the caller supplies an address unused
elsewhere). -/
def SLLPtr.copyCtor (fresh : Nat) (other : SLLPtr) : Option SLLPtr :=
  if other.IsEmpty then some ⟨none, [], 0⟩
  else
    match SingleLinkedList.empty.PushListTmp other.elems with
    | none => none
    | some t => some ⟨some fresh, t.elems, t.size_⟩

/-- `operator=(rhs)`: first `assert(head_.next_node != rhs.head_.next_node)`
— the assertion fires (`none`) whenever the two head pointers coincide,
which is always the case for self-assignment (same object, same field) and
for two distinct empty lists (both null).  When the assertion passes the
head pointers differ, hence the objects differ, so the `this != &rhs`
guard is true: a temporary copy of `rhs` is built and `swap(tmp)` is
called; `*this* ` is returned. -/
def SLLPtr.assign (fresh : Nat) (lhs rhs : SLLPtr) : Option SLLPtr :=
  if lhs.firstPtr = rhs.firstPtr then none
  else
    match SLLPtr.copyCtor fresh rhs with
    | none => none
    | some tmp => some (lhs.swap tmp).1

/-- Four-iterator `std::equal(first1, last1, first2, last2)` over the two
chains: true exactly when the ranges have the same length and equal
elements position by position. -/
def stdEqual : List Int → List Int → Bool
  | [], [] => true
  | x :: xs, y :: ys => x == y && stdEqual xs ys
  | _, _ => false

/-- Free `operator==(lhs, rhs)`: `if (lhs.begin() == rhs.begin()) return
true;` — iterators compare by node address, so this is the `firstPtr`
comparison — then `lhs.GetSize() == rhs.GetSize() && std::equal(...)`. -/
def SLLPtr.beq (lhs rhs : SLLPtr) : Bool :=
  if lhs.firstPtr = rhs.firstPtr then true
  else lhs.GetSize == rhs.GetSize && stdEqual lhs.elems rhs.elems

/-- Free `operator!=(lhs, rhs)`: `!(lhs == rhs)`. -/
def SLLPtr.bne (lhs rhs : SLLPtr) : Bool := !SLLPtr.beq lhs rhs

/-- One public mutating operation of the spec's list (the operations named
by the size/chain invariant claim).  Cursor-taking operations carry the
cursor; `swapOp` swaps with a companion list. -/
inductive Op where
  | pushFrontOp : Int → Op
  | insertAfterOp : Option Nat → Int → Op
  | popFrontOp : Op
  | eraseAfterOp : Option Nat → Op
  | clearOp : Op
  | swapOp : Op

/-- Execute one operation on a pair of lists (the operation acts on the
first list; `swapOp` exchanges the two). -/
def step : Op → SingleLinkedList × SingleLinkedList →
    Option (SingleLinkedList × SingleLinkedList)
  | Op.pushFrontOp v, (a, b) => some (a.PushFront v, b)
  | Op.insertAfterOp c v, (a, b) =>
    match a.InsertAfter c v with
    | some (a2, _) => some (a2, b)
    | none => none
  | Op.popFrontOp, (a, b) =>
    match a.PopFront with
    | some a2 => some (a2, b)
    | none => none
  | Op.eraseAfterOp c, (a, b) =>
    match a.EraseAfter c with
    | some (a2, _) => some (a2, b)
    | none => none
  | Op.clearOp, (a, b) => some (a.Clear, b)
  | Op.swapOp, (a, b) => some (a.swap b)

/-- Execute a sequence of operations from a given pair of lists. -/
def runFrom : List Op → SingleLinkedList × SingleLinkedList →
    Option (SingleLinkedList × SingleLinkedList)
  | [], p => some p
  | op :: ops, p =>
    match step op p with
    | some q => runFrom ops q
    | none => none

/-- Execute a sequence of operations starting from two empty lists. -/
def run (ops : List Op) : Option (SingleLinkedList × SingleLinkedList) :=
  runFrom ops (SingleLinkedList.empty, SingleLinkedList.empty)

theorem stdEqual_eq : ∀ xs ys : List Int, stdEqual xs ys = true ↔ xs = ys
  | [], [] => by simp [stdEqual]
  | [], _ :: _ => by simp [stdEqual]
  | _ :: _, [] => by simp [stdEqual]
  | x :: xs, y :: ys => by
    simp [stdEqual, stdEqual_eq xs ys]

theorem pushLoop_append (vs : List Int) : ∀ (es : List Int) (n : Nat),
    SingleLinkedList.pushLoop ⟨es, n⟩ es.length vs =
      some (⟨es ++ vs, n + vs.length⟩, es.length + vs.length) := by
  induction vs with
  | nil => intro es n; simp [SingleLinkedList.pushLoop]
  | cons v rest ih =>
    intro es n
    have h1 : SingleLinkedList.InsertAfter ⟨es, n⟩ (some es.length) v =
        some (⟨es ++ [v], n + 1⟩, some (es.length + 1)) := by
      simp [SingleLinkedList.InsertAfter]
    have hlen : es.length + 1 = (es ++ [v]).length := by simp
    rw [SingleLinkedList.pushLoop, h1]
    show SingleLinkedList.pushLoop ⟨es ++ [v], n + 1⟩ (es.length + 1) rest = _
    rw [hlen, ih (es ++ [v]) (n + 1)]
    simp [List.append_assoc]
    omega

theorem PushListTmp_cons (s : SingleLinkedList) (v : Int) (rest : List Int) :
    s.PushListTmp (v :: rest) = some ⟨v :: rest, (v :: rest).length⟩ := by
  have h := pushLoop_append rest [v] 1
  simp at h
  simp [SingleLinkedList.PushListTmp, SingleLinkedList.InitHead,
    SingleLinkedList.empty, SingleLinkedList.begin, h, SingleLinkedList.swap,
    SingleLinkedList.IsEmpty, SingleLinkedList.GetSize]
  omega

theorem PushFront_inv (s : SingleLinkedList) (v : Int) (h : sizeInv s) :
    sizeInv (s.PushFront v) := by
  simp [sizeInv, SingleLinkedList.PushFront] at h ⊢
  omega

theorem InsertAfter_inv (s s2 : SingleLinkedList) (c c2 : Option Nat) (v : Int)
    (h : sizeInv s) (he : s.InsertAfter c v = some (s2, c2)) : sizeInv s2 := by
  match c with
  | none => simp [SingleLinkedList.InsertAfter] at he
  | some i =>
    simp [SingleLinkedList.InsertAfter] at he
    obtain ⟨hle, he1, he2⟩ := he
    subst he1
    simp [sizeInv] at h ⊢
    omega

theorem PopFront_inv (s s2 : SingleLinkedList)
    (h : sizeInv s) (he : s.PopFront = some s2) : sizeInv s2 := by
  rw [SingleLinkedList.PopFront] at he
  split at he
  case isTrue => simp at he; exact he ▸ h
  case isFalse hne =>
    match hm : s.elems with
    | [] => rw [hm] at he; simp at he
    | x :: rest =>
      rw [hm] at he
      simp at he
      rw [← he]
      simp [sizeInv, hm] at h ⊢
      omega

theorem EraseAfter_inv (s s2 : SingleLinkedList) (c c2 : Option Nat)
    (h : sizeInv s) (he : s.EraseAfter c = some (s2, c2)) : sizeInv s2 := by
  simp [SingleLinkedList.EraseAfter, SingleLinkedList.IsEmpty,
    SingleLinkedList.GetSize] at he
  split at he
  case isTrue hz =>
    simp at he
    obtain ⟨he1, -⟩ := he
    rw [← he1]
    exact h
  case isFalse hnz =>
    match c with
    | none => simp at he
    | some i =>
      simp at he
      obtain ⟨hlt, he1, -⟩ := he
      subst he1
      simp [sizeInv] at h ⊢
      omega

theorem Clear_inv (s : SingleLinkedList) (h : sizeInv s) :
    sizeInv s.Clear := by
  simp [SingleLinkedList.Clear, SingleLinkedList.GetSize]
  split
  · exact h
  · simp [sizeInv]

theorem swap_inv (a b : SingleLinkedList) (ha : sizeInv a) (hb : sizeInv b) :
    sizeInv (a.swap b).1 ∧ sizeInv (a.swap b).2 := by
  simp [SingleLinkedList.swap]
  split
  · exact ⟨ha, hb⟩
  · exact ⟨hb, ha⟩

theorem step_inv (op : Op) (a b a2 b2 : SingleLinkedList)
    (ha : sizeInv a) (hb : sizeInv b)
    (h : step op (a, b) = some (a2, b2)) : sizeInv a2 ∧ sizeInv b2 := by
  cases op with
  | pushFrontOp v =>
    simp [step] at h
    obtain ⟨h1, h2⟩ := h
    exact ⟨h1 ▸ PushFront_inv a v ha, h2 ▸ hb⟩
  | insertAfterOp c v =>
    simp [step] at h
    match hm : a.InsertAfter c v with
    | none => rw [hm] at h; simp at h
    | some (x, cx) =>
      rw [hm] at h; simp at h
      obtain ⟨h1, h2⟩ := h
      exact ⟨h1 ▸ InsertAfter_inv a x c cx v ha hm, h2 ▸ hb⟩
  | popFrontOp =>
    simp [step] at h
    match hm : a.PopFront with
    | none => rw [hm] at h; simp at h
    | some x =>
      rw [hm] at h; simp at h
      obtain ⟨h1, h2⟩ := h
      exact ⟨h1 ▸ PopFront_inv a x ha hm, h2 ▸ hb⟩
  | eraseAfterOp c =>
    simp [step] at h
    match hm : a.EraseAfter c with
    | none => rw [hm] at h; simp at h
    | some (x, cx) =>
      rw [hm] at h; simp at h
      obtain ⟨h1, h2⟩ := h
      exact ⟨h1 ▸ EraseAfter_inv a x c cx ha hm, h2 ▸ hb⟩
  | clearOp =>
    simp [step] at h
    obtain ⟨h1, h2⟩ := h
    exact ⟨h1 ▸ Clear_inv a ha, h2 ▸ hb⟩
  | swapOp =>
    simp [step] at h
    have hs := swap_inv a b ha hb
    rw [show a2 = (a.swap b).1 by rw [h], show b2 = (a.swap b).2 by rw [h]]
    exact hs

theorem runFrom_inv : ∀ (ops : List Op) (a b a2 b2 : SingleLinkedList),
    sizeInv a → sizeInv b → runFrom ops (a, b) = some (a2, b2) →
    sizeInv a2 ∧ sizeInv b2
  | [], a, b, a2, b2, ha, hb, h => by
    simp [runFrom] at h
    obtain ⟨h1, h2⟩ := h
    exact ⟨h1 ▸ ha, h2 ▸ hb⟩
  | op :: ops, a, b, a2, b2, ha, hb, h => by
    rw [runFrom] at h
    match hm : step op (a, b) with
    | none => rw [hm] at h; simp at h
    | some (x, y) =>
      rw [hm] at h
      simp at h
      obtain ⟨hx, hy⟩ := step_inv op a b x y ha hb hm
      exact runFrom_inv ops x y a2 b2 hx hy h

theorem inv_observations (s : SingleLinkedList) (h : sizeInv s) :
    s.GetSize = s.elems.length ∧ (s.IsEmpty = true ↔ s.GetSize = 0) ∧
      (s.GetSize = 0 ↔ s.begin = s.endIt) := by
  refine ⟨h, by simp [SingleLinkedList.IsEmpty], ?_⟩
  simp [SingleLinkedList.GetSize, SingleLinkedList.begin,
    SingleLinkedList.endIt, sizeInv] at h ⊢
  rw [h]
  exact List.length_eq_zero

/-- C1: the claim states that `swap(L1, L2)` always exchanges the two
lists' contents, including when either side is empty, and that swapping
twice restores both.  The code's member `swap` returns early whenever the
argument list is empty, so swapping a non-empty list with an empty
argument is a no-op; and starting from `L1 = []`, `L2 = [1]` the first
swap exchanges (argument non-empty) but the second swap then sees an
empty argument and does nothing, leaving `(L1, L2) = ([1], [])` instead of
the original `([], [1])`. -/
theorem swap_skips_exchange_when_arg_empty :
    swapFree ⟨[1], 1⟩ ⟨[], 0⟩ = (⟨[1], 1⟩, ⟨[], 0⟩) ∧
      swapFree (swapFree ⟨[], 0⟩ ⟨[1], 1⟩).1 (swapFree ⟨[], 0⟩ ⟨[1], 1⟩).2 =
        (⟨[1], 1⟩, ⟨[], 0⟩) := by decide

/-- C2: the claim states that after `L1 = L2` (distinct lists, any
contents including `L2` empty) `L1` is value-equal to `L2`.  In the code,
assigning an empty right-hand side builds an empty temporary and
`swap(tmp)` returns without exchanging, so `L1` keeps its old element
(first conjunct: left list with first-node address 1 and element 5 is
unchanged, where 100 is the fresh address for the temporary's nodes); and
between two distinct empty lists the
`assert(head_.next_node != rhs.head_.next_node)` fires, both pointers
being null (second conjunct). -/
theorem assign_empty_rhs_leaves_lhs_unchanged :
    SLLPtr.assign 100 ⟨some 1, [5], 1⟩ ⟨none, [], 0⟩ =
        some ⟨some 1, [5], 1⟩ ∧
      SLLPtr.assign 100 ⟨none, [], 0⟩ ⟨none, [], 0⟩ = none := by decide

/-- C3: the claim states that self-assignment `L = L` is a defined no-op
and no assertion fires.  In the code the
`assert(head_.next_node != rhs.head_.next_node)` precedes the
`this != &rhs` identity check, and under self-assignment both sides of
the assertion are the same field of the same object, so the assertion
always fires: here on the list `[3, 4]` whose first node has address 1
(7 is the fresh address the temporary would use). -/
theorem assign_self_assert_fires :
    SLLPtr.assign 7 ⟨some 1, [3, 4], 2⟩ ⟨some 1, [3, 4], 2⟩ = none := by
  decide

/-- C4 counterexample: constructing from the empty initializer list does
not yield an (empty) list: `PushListTmp` dereferences `*p` with
`p = begin` before any emptiness check, so for an empty range it
dereferences the end iterator — undefined behaviour, modelled `none`. -/
theorem fromInitList_empty_undefined :
    SingleLinkedList.fromInitList [] = none := rfl

/-- C4 (amended): for every non-empty value sequence, initializer-list
construction yields a list whose chain is exactly that sequence and whose
size equals its length; copy construction does the same for every
size-coherent source list, including the empty one; and in particular
construction from `[1, 2, 3]` yields chain `1, 2, 3` and size 3. -/
theorem construct_nonempty_preserves_order :
    (∀ values : List Int, values ≠ [] →
        SingleLinkedList.fromInitList values =
          some ⟨values, values.length⟩) ∧
      (∀ other : SingleLinkedList, sizeInv other →
        other.copyCtor = some ⟨other.elems, other.elems.length⟩) ∧
      SingleLinkedList.fromInitList [1, 2, 3] = some ⟨[1, 2, 3], 3⟩ := by
  refine ⟨?_, ?_, by decide⟩
  · intro values hne
    match values with
    | [] => exact absurd rfl hne
    | v :: rest => exact PushListTmp_cons _ v rest
  · intro other hinv
    rw [sizeInv] at hinv
    have hiff : other.IsEmpty = true ↔ other.elems = [] := by
      simp [SingleLinkedList.IsEmpty, SingleLinkedList.GetSize, hinv]
    rw [SingleLinkedList.copyCtor]
    split
    case isTrue hemp =>
      rw [hiff.mp hemp]
      rfl
    case isFalse hne =>
      have hne2 : other.elems ≠ [] := fun hh => hne (hiff.mpr hh)
      obtain ⟨x, rest, hm⟩ := List.exists_cons_of_ne_nil hne2
      rw [hm]
      exact PushListTmp_cons _ x rest

/-- C4 witness: the amended construction claim evaluated at the concrete
sequence `[1, 2, 3]` and at the concrete source list `[4, 5]`. -/
theorem construct_nonempty_witness :
    SingleLinkedList.fromInitList [1, 2, 3] = some ⟨[1, 2, 3], 3⟩ ∧
      SingleLinkedList.copyCtor ⟨[4, 5], 2⟩ = some ⟨[4, 5], 2⟩ := by
  constructor
  · exact construct_nonempty_preserves_order.1 [1, 2, 3] (by decide)
  · have h := construct_nonempty_preserves_order.2.1 ⟨[4, 5], 2⟩
      (by simp [sizeInv])
    simpa using h

/-- C5: after every sequence of the spec's public operations (push_front,
insert_after, pop_front, erase_after, clear, swap) starting from empty
lists and completing without a failed assertion, the stored size of each
list equals the number of elements reachable from `begin()`, `IsEmpty`
holds iff the size is 0, and the size is 0 iff `begin() = end()`. -/
theorem size_eq_reachable_after_ops (ops : List Op)
    (a b : SingleLinkedList) (h : run ops = some (a, b)) :
    (a.GetSize = a.elems.length ∧ (a.IsEmpty = true ↔ a.GetSize = 0) ∧
        (a.GetSize = 0 ↔ a.begin = a.endIt)) ∧
      (b.GetSize = b.elems.length ∧ (b.IsEmpty = true ↔ b.GetSize = 0) ∧
        (b.GetSize = 0 ↔ b.begin = b.endIt)) := by
  rw [run] at h
  have hinv := runFrom_inv ops SingleLinkedList.empty SingleLinkedList.empty
    a b (by simp [sizeInv, SingleLinkedList.empty])
    (by simp [sizeInv, SingleLinkedList.empty]) h
  exact ⟨inv_observations a hinv.1, inv_observations b hinv.2⟩

/-- C5 witness: the invariant read off after the concrete operation
sequence push 1, push 2, insert-after-first 5, pop, swap (which ends in
the pair `([5, 1], [])`). -/
theorem size_eq_reachable_witness :
    (⟨[5, 1], 2⟩ : SingleLinkedList).GetSize =
        ([5, 1] : List Int).length ∧
      ((⟨[], 0⟩ : SingleLinkedList).GetSize = 0 ↔
        (⟨[], 0⟩ : SingleLinkedList).begin =
          (⟨[], 0⟩ : SingleLinkedList).endIt) := by
  have h := size_eq_reachable_after_ops
    [Op.pushFrontOp 1, Op.pushFrontOp 2, Op.insertAfterOp (some 1) 5,
      Op.popFrontOp, Op.swapOp]
    ⟨[5, 1], 2⟩ ⟨[], 0⟩ (by decide)
  exact ⟨h.1.1, h.2.2.2⟩

/-- C6: for every valid cursor (the sentinel `some 0` = `before_begin`, or
a real node `some i`, `i ≤` chain length), `InsertAfter` splices a new
node holding the value between the referenced position and its successor,
increments the size by one, and returns a cursor to the new node (which
indeed holds the value); in particular inserting after `before_begin` on
`[a, b]` yields `[x, a, b]` and inserting after the node holding `a`
yields `[a, x, b]`. -/
theorem insertAfter_spec :
    (∀ (s : SingleLinkedList) (i : Nat) (v : Int), i ≤ s.elems.length →
        s.InsertAfter (some i) v =
            some (⟨s.elems.take i ++ v :: s.elems.drop i, s.size_ + 1⟩,
              some (i + 1)) ∧
          (s.elems.take i ++ v :: s.elems.drop i)[i]? = some v) ∧
      (∀ a b x : Int,
        ((⟨[a, b], 2⟩ : SingleLinkedList).InsertAfter
            ((⟨[a, b], 2⟩ : SingleLinkedList).before_begin) x).map
          (fun p => p.1.elems) = some [x, a, b]) ∧
      (∀ a b x : Int,
        ((⟨[a, b], 2⟩ : SingleLinkedList).InsertAfter (some 1) x).map
          (fun p => p.1.elems) = some [a, x, b]) := by
  refine ⟨?_, ?_, ?_⟩
  · intro s i v hle
    have hlen : (s.elems.take i).length = i := by
      simp [List.length_take]
      omega
    constructor
    · simp [SingleLinkedList.InsertAfter, hle]
    · rw [List.getElem?_append_right (by omega), hlen]
      simp
  · intro a b x
    simp [SingleLinkedList.InsertAfter, SingleLinkedList.before_begin]
  · intro a b x
    simp [SingleLinkedList.InsertAfter]

/-- C6 witness: inserting 7 after the sentinel of the list `[10, 20]`. -/
theorem insertAfter_witness :
    (⟨[10, 20], 2⟩ : SingleLinkedList).InsertAfter (some 0) 7 =
      some (⟨[7, 10, 20], 3⟩, some 1) := by
  have h := (insertAfter_spec.1 ⟨[10, 20], 2⟩ 0 7 (by simp)).1
  simpa using h

/-- C7: `EraseAfter` on a list whose stored size is 0 is a no-op
returning the null cursor, for any cursor argument; on a size-coherent
list and a cursor `some i` whose referenced position has a successor
(`i <` chain length) it removes the node following the cursor, relinks
past it, decrements the size by one, and returns a cursor to the node now
following the position (null if none); in particular erasing after
`before_begin` on `[a, b, c]` yields `[b, c]`. -/
theorem eraseAfter_spec :
    (∀ (s : SingleLinkedList) (c : Option Nat), s.GetSize = 0 →
        s.EraseAfter c = some (s, none)) ∧
      (∀ (s : SingleLinkedList) (i : Nat), sizeInv s → i < s.elems.length →
        s.EraseAfter (some i) =
          some (⟨s.elems.take i ++ s.elems.drop (i + 1), s.size_ - 1⟩,
            if i + 1 < s.elems.length then some (i + 1) else none)) ∧
      (∀ a b c : Int,
        ((⟨[a, b, c], 3⟩ : SingleLinkedList).EraseAfter
            ((⟨[a, b, c], 3⟩ : SingleLinkedList).before_begin)).map
          (fun p => p.1.elems) = some [b, c]) := by
  refine ⟨?_, ?_, ?_⟩
  · intro s c hz
    simp [SingleLinkedList.GetSize] at hz
    simp [SingleLinkedList.EraseAfter, SingleLinkedList.IsEmpty,
      SingleLinkedList.GetSize, hz]
  · intro s i hinv hlt
    rw [sizeInv] at hinv
    have hne : s.IsEmpty = false := by
      rw [SingleLinkedList.IsEmpty, SingleLinkedList.GetSize, hinv]
      simp only [beq_eq_false_iff_ne, ne_eq]
      omega
    simp [SingleLinkedList.EraseAfter, hne, hlt]
    by_cases h2 : i + 1 < s.elems.length
    · simp [h2]
      omega
    · simp [h2]
      omega
  · intro a b c
    simp [SingleLinkedList.EraseAfter, SingleLinkedList.before_begin,
      SingleLinkedList.IsEmpty, SingleLinkedList.GetSize]

/-- C7 witness: erasing after the sentinel of the list `[1, 2, 3]`. -/
theorem eraseAfter_witness :
    (⟨[1, 2, 3], 3⟩ : SingleLinkedList).EraseAfter (some 0) =
      some (⟨[2, 3], 2⟩, some 1) := by
  have h := eraseAfter_spec.2.1 ⟨[1, 2, 3], 3⟩ 0 (by simp [sizeInv]) (by simp)
  simpa using h

/-- C8: `PopFront` on a list whose stored size is 0 is a no-op (not an
error); on a size-coherent non-empty list it removes the first element
and decrements the size by one; in particular `[a, b, c]` becomes
`[b, c]` and `[]` stays `[]`. -/
theorem popFront_spec :
    (∀ s : SingleLinkedList, s.GetSize = 0 → s.PopFront = some s) ∧
      (∀ s : SingleLinkedList, sizeInv s → s.elems ≠ [] →
        s.PopFront = some ⟨s.elems.tail, s.size_ - 1⟩) ∧
      (∀ a b c : Int,
        (⟨[a, b, c], 3⟩ : SingleLinkedList).PopFront =
          some ⟨[b, c], 2⟩) ∧
      (⟨[], 0⟩ : SingleLinkedList).PopFront = some ⟨[], 0⟩ := by
  refine ⟨?_, ?_, ?_, by decide⟩
  · intro s hz
    simp [SingleLinkedList.GetSize] at hz
    simp [SingleLinkedList.PopFront, SingleLinkedList.IsEmpty,
      SingleLinkedList.GetSize, hz]
  · intro s hinv hne
    rw [sizeInv] at hinv
    have hf : s.IsEmpty = false := by
      simp [SingleLinkedList.IsEmpty, SingleLinkedList.GetSize, hinv,
        List.length_eq_zero]
      exact hne
    obtain ⟨x, rest, hm⟩ := List.exists_cons_of_ne_nil hne
    simp [SingleLinkedList.PopFront, hf, hm]
  · intro a b c
    simp [SingleLinkedList.PopFront, SingleLinkedList.IsEmpty,
      SingleLinkedList.GetSize]

/-- C8 witness: popping the front of the list `[7, 8]`. -/
theorem popFront_witness :
    (⟨[7, 8], 2⟩ : SingleLinkedList).PopFront = some ⟨[8], 1⟩ := by
  have h := popFront_spec.2.1 ⟨[7, 8], 2⟩ (by simp [sizeInv]) (by simp)
  simpa using h

/-- C9: `operator==` returns true immediately when the two lists' first
node addresses coincide (no values compared), and otherwise returns true
exactly when the sizes match and the element sequences are equal position
by position; `operator!=` is the boolean negation of `operator==`. -/
theorem eq_shortcircuit_spec (lhs rhs : SLLPtr) :
    (lhs.firstPtr = rhs.firstPtr → SLLPtr.beq lhs rhs = true) ∧
      (lhs.firstPtr ≠ rhs.firstPtr →
        (SLLPtr.beq lhs rhs = true ↔
          lhs.GetSize = rhs.GetSize ∧ lhs.elems = rhs.elems)) ∧
      SLLPtr.bne lhs rhs = !SLLPtr.beq lhs rhs := by
  refine ⟨?_, ?_, rfl⟩
  · intro hp
    simp [SLLPtr.beq, hp]
  · intro hp
    simp [SLLPtr.beq, hp, stdEqual_eq]

/-- C9 witness: two structurally distinct lists with the same values are
equal through the value comparison, and two lists sharing their first
node (aliasing) are equal through the address short-circuit alone. -/
theorem eq_shortcircuit_witness :
    (SLLPtr.beq ⟨some 1, [2, 3], 2⟩ ⟨some 4, [2, 3], 2⟩ = true ↔
        (⟨some 1, [2, 3], 2⟩ : SLLPtr).GetSize =
            (⟨some 4, [2, 3], 2⟩ : SLLPtr).GetSize ∧
          (⟨some 1, [2, 3], 2⟩ : SLLPtr).elems =
            (⟨some 4, [2, 3], 2⟩ : SLLPtr).elems) ∧
      SLLPtr.beq ⟨some 9, [5], 1⟩ ⟨some 9, [5], 1⟩ = true :=
  ⟨(eq_shortcircuit_spec ⟨some 1, [2, 3], 2⟩ ⟨some 4, [2, 3], 2⟩).2.1
      (by decide),
    (eq_shortcircuit_spec ⟨some 9, [5], 1⟩ ⟨some 9, [5], 1⟩).1 rfl⟩

/-- C10: `SetSize(n)` overwrites the stored counter with `n` and leaves
the node chain untouched, so the size/chain invariant is not preserved by
every public operation: after `SetSize(5)` on an empty list the counter
is 5 while no element is reachable. -/
theorem setSize_frame_breaks_invariant :
    (∀ (s : SingleLinkedList) (n : Nat),
        (s.SetSize n).elems = s.elems ∧ (s.SetSize n).GetSize = n) ∧
      ¬ sizeInv (SingleLinkedList.empty.SetSize 5) := by
  refine ⟨fun s n => ⟨rfl, rfl⟩, ?_⟩
  simp [sizeInv, SingleLinkedList.SetSize, SingleLinkedList.empty]
